import Mathlib

/-!
Verification of the ref-resolution and output-parsing layer of scm.py.

Python strings are modelled as `List Char`; a string literal "s" of the
source is written `"s".data`.  Bytes (subprocess output) are modelled as
`List Nat` with each entry below 256.  Calls into the external git binary
are modelled by explicit environment records whose fields hold the result
of each invocation (`none` standing for a raised CalledProcessError).
-/

/-- Fuel-driven core of Python str.replace.  The fuel is an upper bound on
the number of scanning steps; each step either consumes one character or a
full (non-empty) occurrence of `old`, so fuel equal to the length of the
scanned list suffices. -/
def pyReplaceAux (old new : List Char) : Nat → List Char → List Char
  | _, [] => []
  | 0, s => s
  | fuel + 1, c :: cs =>
    if old.isPrefixOf (c :: cs) then new ++ pyReplaceAux old new fuel ((c :: cs).drop old.length)
    else c :: pyReplaceAux old new fuel cs

/-- Models Python s.replace(old, new): every occurrence of `old` found in a
single left-to-right scan of `s` is replaced by `new`.  The source only ever
calls replace with a non-empty `old`; for `old = []` we return `s`
unchanged (Python would interleave `new` between characters, a case the
source never exercises). -/
def pyReplace (s old new : List Char) : List Char :=
  if old.isEmpty then s else pyReplaceAux old new s.length s

/-- A list is border free when no proper non-empty suffix of it is also a
prefix of it.  For a border-free pattern, occurrences in any text cannot
overlap each other or straddle a boundary with a copy of the pattern, which
makes the left-to-right scan of replace delete occurrences cleanly. -/
def borderFree (l : List Char) : Prop :=
  ∀ a, a < l.length - 1 → l.drop (a + 1) ≠ l.take (l.length - (a + 1))

/-- Python truthiness of an optional string: None and the empty string are
falsy.  Collapses a falsy value to `none`. -/
def pyTruthy : Option (List Char) → Option (List Char)
  | none => none
  | some s => if s.isEmpty then none else some s

/-- Characters at which Python str.splitlines breaks lines. -/
def isLineBreakChar (c : Char) : Bool :=
  c == '\n' || c == '\r' || c == '\x0b' || c == '\x0c' ||
  c == '\x1c' || c == '\x1d' || c == '\x1e' || c == '\x85' ||
  c == ' ' || c == ' '

/-- Accumulator-based core of Python str.splitlines (keepends=False).
A CR LF pair counts as a single boundary; a trailing fragment without a
terminator still forms a line; the empty string yields no lines.  The fuel
is an upper bound on the number of steps; each step consumes at least one
character, so fuel equal to the length of the remaining text suffices (the
fuel-exhausted branch is unreachable from pySplitlines). -/
def pySplitlinesAux : Nat → List Char → List Char → List (List Char)
  | _, acc, [] => if acc.isEmpty then [] else [acc.reverse]
  | 0, acc, s => [acc.reverse ++ s]
  | fuel + 1, acc, c :: r =>
    if isLineBreakChar c then
      if c == '\r' then
        match r with
        | '\n' :: r2 => acc.reverse :: pySplitlinesAux fuel [] r2
        | _ => acc.reverse :: pySplitlinesAux fuel [] r
      else acc.reverse :: pySplitlinesAux fuel [] r
    else pySplitlinesAux fuel (c :: acc) r

/-- Models Python s.splitlines(). -/
def pySplitlines (s : List Char) : List (List Char) :=
  pySplitlinesAux s.length [] s

/-- Whitespace characters stripped by Python str.strip(): ASCII whitespace,
the C1 and Unicode space characters. -/
def pyIsSpace (c : Char) : Bool :=
  c == ' ' || c == '\t' || c == '\n' || c == '\r' || c == '\x0b' || c == '\x0c' ||
  c == '\x1c' || c == '\x1d' || c == '\x1e' || c == '\x1f' ||
  c == '\x85' || c == '\xa0' || c == ' ' ||
  (' ' ≤ c && c ≤ ' ') ||
  c == ' ' || c == ' ' || c == ' ' || c == ' ' || c == '　'

/-- Models Python s.strip(): removes leading and trailing whitespace. -/
def pyStrip (s : List Char) : List Char :=
  (((s.dropWhile pyIsSpace).reverse).dropWhile pyIsSpace).reverse

/-- Fuel-driven core of the UTF-8 decoder: each step consumes at least one
byte, so fuel equal to the number of remaining bytes suffices (the
fuel-exhausted branch is unreachable from utf8DecodeReplace). -/
def utf8DecodeReplaceAux : Nat → List Nat → List Char
  | _, [] => []
  | 0, _ => []
  | fuel + 1, b :: rest =>
    if b < 0x80 then Char.ofNat b :: utf8DecodeReplaceAux fuel rest
    else if b < 0xC2 then Char.ofNat 0xFFFD :: utf8DecodeReplaceAux fuel rest
    else if b < 0xE0 then
      match rest with
      | [] => [Char.ofNat 0xFFFD]
      | b2 :: r2 =>
        if 0x80 ≤ b2 && b2 < 0xC0 then
          Char.ofNat ((b - 0xC0) * 64 + (b2 - 0x80)) :: utf8DecodeReplaceAux fuel r2
        else Char.ofNat 0xFFFD :: utf8DecodeReplaceAux fuel rest
    else if b < 0xF0 then
      match rest with
      | [] => [Char.ofNat 0xFFFD]
      | b2 :: r2 =>
        if (if b == 0xE0 then 0xA0 else 0x80) ≤ b2 && b2 ≤ (if b == 0xED then 0x9F else 0xBF) then
          match r2 with
          | [] => [Char.ofNat 0xFFFD]
          | b3 :: r3 =>
            if 0x80 ≤ b3 && b3 < 0xC0 then
              Char.ofNat (((b - 0xE0) * 64 + (b2 - 0x80)) * 64 + (b3 - 0x80)) :: utf8DecodeReplaceAux fuel r3
            else Char.ofNat 0xFFFD :: utf8DecodeReplaceAux fuel r2
        else Char.ofNat 0xFFFD :: utf8DecodeReplaceAux fuel rest
    else if b < 0xF5 then
      match rest with
      | [] => [Char.ofNat 0xFFFD]
      | b2 :: r2 =>
        if (if b == 0xF0 then 0x90 else 0x80) ≤ b2 && b2 ≤ (if b == 0xF4 then 0x8F else 0xBF) then
          match r2 with
          | [] => [Char.ofNat 0xFFFD]
          | b3 :: r3 =>
            if 0x80 ≤ b3 && b3 < 0xC0 then
              match r3 with
              | [] => [Char.ofNat 0xFFFD]
              | b4 :: r4 =>
                if 0x80 ≤ b4 && b4 < 0xC0 then
                  Char.ofNat ((((b - 0xF0) * 64 + (b2 - 0x80)) * 64 + (b3 - 0x80)) * 64 + (b4 - 0x80))
                    :: utf8DecodeReplaceAux fuel r4
                else Char.ofNat 0xFFFD :: utf8DecodeReplaceAux fuel r3
            else Char.ofNat 0xFFFD :: utf8DecodeReplaceAux fuel r2
        else Char.ofNat 0xFFFD :: utf8DecodeReplaceAux fuel rest
    else Char.ofNat 0xFFFD :: utf8DecodeReplaceAux fuel rest

/-- Models Python bytes.decode("utf-8", "replace"): a total UTF-8 decoder
that turns each maximal invalid subpart into one U+FFFD replacement
character and never fails. -/
def utf8DecodeReplace (bytes : List Nat) : List Char :=
  utf8DecodeReplaceAux bytes.length bytes

/-- Observer splitting a text on the LF character, used to state theorems
about the line structure of generated output.  A trailing fragment without
a terminator still forms a line. -/
def textLinesAux : List Char → List Char → List (List Char)
  | acc, [] => if acc.isEmpty then [] else [acc.reverse]
  | acc, c :: r => if c == '\n' then acc.reverse :: textLinesAux [] r else textLinesAux (c :: acc) r

/-- Lines of a text, splitting on LF. -/
def textLines (s : List Char) : List (List Char) :=
  textLinesAux [] s

/-- Models GenFakeDiff (scm.py lines 45-64).  The first argument is the
file name after the os.sep substitution of line 48 (on posix this
substitution is the identity); the second is the value of
FileRead(filename, "rb").splitlines(True), i.e. the list of lines of the
file with their line terminators kept. -/
def GenFakeDiff (filename : List Char) (file_content : List (List Char)) : List Char :=
  "Index: ".data ++ filename ++ ['\n'] ++
  List.replicate 67 '=' ++ ['\n'] ++
  "--- ".data ++ filename ++ ['\n'] ++
  "+++ ".data ++ filename ++ ['\n'] ++
  "@@ -0,0 +1,".data ++ (toString file_content.length).data ++ " @@".data ++ ['\n'] ++
  (file_content.map (fun line => '+' :: line)).flatten

namespace GIT

/-- Models GIT.Capture (scm.py lines 110-116) from the point where the
subprocess has produced its stdout bytes: decode as UTF-8 with replacement
of undecodable sequences, then strip if strip_out is set. -/
def Capture (outputBytes : List Nat) (strip_out : Bool) : List Char :=
  let output := utf8DecodeReplace outputBytes
  if strip_out then pyStrip output else output

/-- Characters matched by the regex class backslash-w for the ASCII range:
letters, digits and the underscore (the status letters and paths fed to the
status regex are ASCII). -/
def isWordChar (c : Char) : Bool :=
  c.isAlphanum || c == '_'

/-- Models one application of re.match on the pattern
"caret (backslash-w)+ TAB (dot)+ dollar" used by CaptureStatus (scm.py line
140) to a single line produced by splitlines (hence free of line breaks):
returns the status word and the path when the line has the shape
word TAB path with a non-empty word of word characters and a non-empty
path. -/
def statusLineMatch (line : List Char) : Option (List Char × List Char) :=
  if (line.takeWhile isWordChar).isEmpty then none
  else
    match line.dropWhile isWordChar with
    | c :: p =>
      if c == '\t' && !p.isEmpty then some (line.takeWhile isWordChar, p) else none
    | [] => none

/-- Models the parsing loop of CaptureStatus (scm.py lines 137-145) over
the already-split status lines.  A matching line contributes the pair of
the last repetition of the one-character group (m[1], whose first character
m[1][0] is that character itself) padded with six spaces, and the path; any
non-matching line raises gclient_utils.Error, modelled as an error carrying
the offending line. -/
def parseStatusLines : List (List Char) → Except (List Char) (List (List Char × List Char))
  | [] => .ok []
  | l :: ls =>
    match statusLineMatch l with
    | some (w, p) =>
      match parseStatusLines ls with
      | .ok rest => .ok ((w.getLastD ' ' :: List.replicate 6 ' ', p) :: rest)
      | .error e => .error e
    | none => .error l

/-- Models GIT.CaptureStatus (scm.py lines 118-145) from the point where
the diff command has produced its (already stripped) output text: an empty
output yields no results, otherwise each splitlines line is parsed. -/
def CaptureStatus (status : List Char) : Except (List Char) (List (List Char × List Char)) :=
  if status.isEmpty then .ok []
  else parseStatusLines (pySplitlines status)

/-- Models GIT.ShortBranchName (scm.py lines 180-183):
branch.replace("refs/heads/", ""). -/
def ShortBranchName (branch : List Char) : List Char :=
  pyReplace branch ("refs/heads/".data) []

/-- Prefixes the regex "caret (refs/(remotes/)?)? branch-heads/" of
RefToRemoteRef (scm.py line 272) can match, in backtracking priority
order (the optional groups are tried longest first). -/
def bhPrefixCandidates : List (List Char) :=
  ["refs/remotes/branch-heads/".data, "refs/branch-heads/".data, "branch-heads/".data]

/-- Match of the release-branch regex of scm.py line 272 against ref,
returning the matched text m[0]. -/
def matchBranchHeads (ref : List Char) : Option (List Char) :=
  bhPrefixCandidates.find? (fun p => p.isPrefixOf ref)

/-- Prefixes the regex "caret ((refs/)?remotes/)? <remote> / | (refs/)? heads/"
of RefToRemoteRef (scm.py line 275) can match, in backtracking priority
order.  The remote name is interpolated into the regex by an f-string; this
model treats it as a literal,—faithful whenever the remote name contains no
regex metacharacters. -/
def remotePrefixCandidates (remote : List Char) : List (List Char) :=
  ["refs/remotes/".data ++ remote ++ "/".data,
   "remotes/".data ++ remote ++ "/".data,
   remote ++ "/".data,
   "refs/heads/".data,
   "heads/".data]

/-- Match of the remote-or-heads regex of scm.py line 275 against ref,
returning the matched text m[0]. -/
def matchRemoteOrHeads (ref remote : List Char) : Option (List Char) :=
  (remotePrefixCandidates remote).find? (fun p => p.isPrefixOf ref)

/-- All namespace prefixes either regex of RefToRemoteRef can match: a ref
is recognised exactly when it starts with one of these. -/
def nsCandidates (remote : List Char) : List (List Char) :=
  bhPrefixCandidates ++ remotePrefixCandidates remote

/-- Models GIT.RefToRemoteRef (scm.py lines 264-278).  A ref of None is
passed as the empty list (the source normalises with "ref or []", and the
empty string matches neither regex). -/
def RefToRemoteRef (ref remote : List Char) : Option (List Char × List Char) :=
  match matchBranchHeads ref with
  | some m0 => some ("refs/remotes/branch-heads/".data, pyReplace ref m0 [])
  | none =>
    match matchRemoteOrHeads ref remote with
    | some m0 => some ("refs/remotes/".data ++ remote ++ "/".data, pyReplace ref m0 [])
    | none => none

/-- Models GIT.RemoteRefToRef (scm.py lines 280-291).  The assert on the
remote is carried as a hypothesis (remote non-empty) by the theorems that
use this function. -/
def RemoteRefToRef (ref remote : List Char) : Option (List Char) :=
  if ref.isEmpty || !(("refs/".data).isPrefixOf ref) then none
  else if !(("refs/remotes/".data).isPrefixOf ref) then some ref
  else if ("refs/remotes/branch-heads/".data).isPrefixOf ref then
    some ("refs".data ++ ref.drop ("refs/remotes".data).length)
  else if ("refs/remotes/".data ++ remote ++ "/".data).isPrefixOf ref then
    some ("refs/heads".data ++ ref.drop ("refs/remotes/".data ++ remote).length)
  else none

end GIT

/-- Abstract state of the git configuration consulted by
GIT.FetchUpstreamTuple: the current short branch name (None when HEAD is
detached), the configuration map (None modelling a CalledProcessError of
"git config", i.e. an absent key), and the whitespace-split output of
"git branch -r". -/
structure GitConfigState where
  currentBranch : Option (List Char)
  config : List Char → Option (List Char)
  remoteBranches : List (List Char)

namespace GIT

/-- Models GIT.GetConfig with a default (scm.py lines 147-152): the default
is returned only when the config command fails. -/
def getConfigD (st : GitConfigState) (key dflt : List Char) : List Char :=
  match st.config key with
  | some v => v
  | none => dflt

/-- Models the legacy-config and remote-branch-enumeration tail of
GIT.FetchUpstreamTuple (scm.py lines 248-262). -/
def fetchUpstreamFallback (st : GitConfigState) : Option (List Char) × Option (List Char) :=
  match pyTruthy (st.config ("rietveld.upstream-branch".data)) with
  | some ub => (some (getConfigD st ("rietveld.upstream-remote".data) (".".data)), some ub)
  | none =>
    if ("origin/main".data) ∈ st.remoteBranches then
      (some ("origin".data), some ("refs/heads/main".data))
    else if ("origin/master".data) ∈ st.remoteBranches then
      (some ("origin".data), some ("refs/heads/master".data))
    else (none, none)

/-- Models GIT.FetchUpstreamTuple (scm.py lines 234-262).  The branch
argument defaults, when falsy, to the current branch; a truthy branch with
a truthy branch.<branch>.merge config wins, then the rietveld legacy keys,
then the conventional remote branches. -/
def FetchUpstreamTuple (st : GitConfigState) (branchArg : Option (List Char)) :
    Option (List Char) × Option (List Char) :=
  let branch : Option (List Char) :=
    match pyTruthy branchArg with
    | some b => some b
    | none => st.currentBranch
  match pyTruthy branch with
  | some b =>
    match pyTruthy (st.config ("branch.".data ++ b ++ ".merge".data)) with
    | some ub => (some (getConfigD st ("branch.".data ++ b ++ ".remote".data) (".".data)), some ub)
    | none => fetchUpstreamFallback st
  | none => fetchUpstreamFallback st

end GIT

/-- Error raised by a modelled Python runtime failure that no handler in
GetRemoteHeadRef catches: joining None (str.join applied to the None
returned by RefToRemoteRef) raises a TypeError. -/
inductive PyError where
  | typeError
deriving DecidableEq, Repr

/-- Abstract outcome of each git invocation made by GIT.GetRemoteHeadRef:
whether the checkout directory exists, the result of reading the symbolic
ref refs/remotes/<remote>/HEAD (None = CalledProcessError), whether the
remote set-head refresh succeeds, the result of the second symbolic-ref
read performed after the refresh (the source passes the previously
resolved ref, not the HEAD mirror, to that second read), and the output of
ls-remote (None = CalledProcessError). -/
structure RemoteHeadEnv where
  cwdExists : Bool
  symbolicRefHead : Option (List Char)
  setHeadOk : Bool
  symbolicRefSecond : Option (List Char)
  lsRemote : Option (List Char)

namespace GIT

/-- Models one application of re.match on the pattern
"caret ref: (dot-star) TAB HEAD dollar" (scm.py line 214) to a line of the
ls-remote output: the line must start with "ref: " and end with TAB "HEAD",
and m[1] is the text in between. -/
def symrefLineMatch (line : List Char) : Option (List Char) :=
  if 10 ≤ line.length && ("ref: ".data).isPrefixOf line && ("\tHEAD".data).isSuffixOf line then
    some ((line.drop 5).take (line.length - 10))
  else none

/-- Models the network phase of GIT.GetRemoteHeadRef (scm.py lines
211-221): query ls-remote, scan its LF-split lines for a symref line, and
translate the matched ref; a match whose ref RefToRemoteRef does not
recognise makes the join of None raise a TypeError; no match, or a failed
ls-remote, falls back to refs/remotes/<remote>/main. -/
def remoteHeadNetworkPhase (remote : List Char) (env : RemoteHeadEnv) :
    Except PyError (List Char) :=
  match env.lsRemote with
  | some resp =>
    match (resp.splitOn '\n').findSome? symrefLineMatch with
    | some target =>
      match RefToRemoteRef target remote with
      | some (p, s) => .ok (p ++ s)
      | none => .error .typeError
    | none => .ok ("refs/remotes/".data ++ remote ++ "/main".data)
  | none => .ok ("refs/remotes/".data ++ remote ++ "/main".data)

/-- Models the local-mirror phase of GIT.GetRemoteHeadRef (scm.py lines
197-209): when the checkout exists, the HEAD mirror of the remote is read;
a resolved ref not ending in "master" is trusted at once; otherwise the
remote head is refreshed and the second read used.  The result is the ref
the try block returns, or none when a CalledProcessError (or a missing
checkout) makes it fall through to the network phase. -/
def remoteHeadLocalPhase (env : RemoteHeadEnv) : Option (List Char) :=
  if env.cwdExists then
    match env.symbolicRefHead with
    | some ref =>
      if !(("master".data).isSuffixOf ref) then some ref
      else if env.setHeadOk then env.symbolicRefSecond
      else none
    | none => none
  else none

/-- Models GIT.GetRemoteHeadRef (scm.py lines 193-221): the local-mirror
phase, then the network phase with its refs/remotes/<remote>/main
fallback. -/
def GetRemoteHeadRef (remote : List Char) (env : RemoteHeadEnv) :
    Except PyError (List Char) :=
  match remoteHeadLocalPhase env with
  | some ref => .ok ref
  | none => remoteHeadNetworkPhase remote env

end GIT


section PyReplaceLemmas

/-- Fuel above the length of the scanned list is irrelevant for
pyReplaceAux when the pattern is non-empty. -/
theorem pyReplaceAux_fuel_eq (old new : List Char) (hold : old ≠ []) :
    ∀ f s, s.length ≤ f → pyReplaceAux old new f s = pyReplaceAux old new s.length s := by
  intro f
  induction f using Nat.strong_induction_on with
  | _ f ih =>
    intro s hf
    match f, s with
    | f, [] => cases f <;> rfl
    | 0, c :: cs => simp at hf
    | f + 1, c :: cs =>
      have hop : 1 ≤ old.length := by
        cases old with
        | nil => exact absurd rfl hold
        | cons o os => simp
      rw [List.length_cons]
      simp only [pyReplaceAux]
      by_cases hpre : old.isPrefixOf (c :: cs) = true
      · simp only [hpre, if_true]
        have hlen1 : ((c :: cs).drop old.length).length ≤ f := by
          simp only [List.length_drop, List.length_cons]
          simp only [List.length_cons] at hf
          omega
        have hlen2 : ((c :: cs).drop old.length).length ≤ cs.length := by
          simp only [List.length_drop, List.length_cons]
          omega
        have h1 := ih f (Nat.lt_succ_self f) ((c :: cs).drop old.length) hlen1
        have h2 := ih cs.length (by simp only [List.length_cons] at hf; omega)
          ((c :: cs).drop old.length) hlen2
        rw [h1, h2]
      · simp only [hpre, if_false, Bool.false_eq_true]
        have h1 := ih f (Nat.lt_succ_self f) cs (by simp only [List.length_cons] at hf; omega)
        rw [h1]

/-- pyReplace on the empty string. -/
theorem pyReplace_nil (old new : List Char) : pyReplace [] old new = [] := by
  unfold pyReplace
  split <;> rfl

/-- When the pattern is not a prefix of the scanned cons cell, replace
keeps the head character and scans the tail. -/
theorem pyReplace_cons (old new : List Char) (c : Char) (cs : List Char)
    (h : ¬ old <+: c :: cs) : pyReplace (c :: cs) old new = c :: pyReplace cs old new := by
  have hold : old ≠ [] := by
    intro h0
    exact h (h0 ▸ List.nil_prefix)
  have hemp : old.isEmpty = false := by
    cases old with
    | nil => exact absurd rfl hold
    | cons o os => rfl
  have hpre : old.isPrefixOf (c :: cs) = false := by
    cases hb : old.isPrefixOf (c :: cs) with
    | false => rfl
    | true => exact absurd ( List.isPrefixOf_iff_prefix.mp hb) h
  unfold pyReplace
  rw [hemp]
  simp only [Bool.false_eq_true, if_false, List.length_cons, pyReplaceAux, hpre]

/-- When the scanned text starts with the pattern, replace emits the
replacement and continues after the consumed occurrence. -/
theorem pyReplace_append (old new t : List Char) (hold : old ≠ []) :
    pyReplace (old ++ t) old new = new ++ pyReplace t old new := by
  cases old with
  | nil => exact absurd rfl hold
  | cons o os =>
    have hpre : (o :: os).isPrefixOf (o :: (os ++ t)) = true := by
      apply List.isPrefixOf_iff_prefix.mpr
      exact List.prefix_append (o :: os) t
    have hdrop : (o :: (os ++ t)).drop (o :: os).length = t := by
      rw [show (o :: os).length = os.length + 1 from rfl, List.drop_succ_cons, List.drop_left]
    have key : pyReplaceAux (o :: os) new ((os ++ t).length + 1) (o :: (os ++ t))
        = new ++ pyReplaceAux (o :: os) new t.length t := by
      simp only [pyReplaceAux, hpre, if_true]
      rw [hdrop]
      congr 1
      exact pyReplaceAux_fuel_eq (o :: os) new hold (os ++ t).length t
        (by simp only [List.length_append]; omega)
    calc pyReplace ((o :: os) ++ t) (o :: os) new
        = pyReplaceAux (o :: os) new ((o :: os) ++ t).length ((o :: os) ++ t) := by
          unfold pyReplace
          simp only [List.isEmpty_cons, Bool.false_eq_true, if_false]
      _ = pyReplaceAux (o :: os) new ((os ++ t).length + 1) (o :: (os ++ t)) := by
          rw [show ((o :: os) ++ t).length = (os ++ t).length + 1 by simp]
          rfl
      _ = new ++ pyReplaceAux (o :: os) new t.length t := key
      _ = new ++ pyReplace t (o :: os) new := by
          unfold pyReplace
          simp only [List.isEmpty_cons, Bool.false_eq_true, if_false]

/-- A text containing no occurrence of the pattern is unchanged by
replace. -/
theorem pyReplace_not_infix (old new s : List Char) (h : ¬ old <:+: s) :
    pyReplace s old new = s := by
  induction s with
  | nil => exact pyReplace_nil old new
  | cons c cs ih =>
    have hp : ¬ old <+: c :: cs := fun hc => h hc.isInfix
    rw [pyReplace_cons old new c cs hp, ih (fun hc => h (List.infix_cons hc))]

/-- For a border-free pattern, a clean segment holding no occurrence is
copied verbatim and the following occurrence is consumed. -/
theorem pyReplace_span (old new : List Char) (hold : old ≠ []) (hbf : borderFree old) :
    ∀ A t, ¬ old <:+: A →
      pyReplace (A ++ old ++ t) old new = A ++ (new ++ pyReplace t old new) := by
  intro A
  induction A with
  | nil =>
    intro t h
    simpa using pyReplace_append old new t hold
  | cons c A ih =>
    intro t h
    have hnp : ¬ old <+: (c :: A) ++ old ++ t := by
      intro hp
      rcases hp with ⟨u, hu⟩
      by_cases hlen : old.length ≤ (c :: A).length
      · apply h
        apply List.IsPrefix.isInfix
        have h1 : (old ++ u).take old.length = old := List.take_left _ _
        have h2 : ((c :: A) ++ old ++ t).take old.length = (c :: A).take old.length := by
          rw [List.append_assoc, List.take_append_of_le_length hlen]
        rw [hu] at h1
        rw [h2] at h1
        exact h1 ▸ List.take_prefix _ _
      · push_neg at hlen
        have hdropeq : old.drop (c :: A).length = old.take (old.length - (c :: A).length) := by
          have hu2 : old ++ u = (c :: A) ++ (old ++ t) := by
            rw [hu, List.append_assoc]
          have hdrop : old.drop (c :: A).length ++ u = old ++ t := by
            have e1 : (old ++ u).drop (c :: A).length = old.drop (c :: A).length ++ u :=
              List.drop_append_of_le_length (Nat.le_of_lt hlen)
            have e2 : ((c :: A) ++ (old ++ t)).drop (c :: A).length = old ++ t :=
              List.drop_left _ _
            rw [← e1, hu2, e2]
          have e3 : (old.drop (c :: A).length ++ u).take (old.length - (c :: A).length)
              = old.drop (c :: A).length := by
            rw [show old.length - (c :: A).length = (old.drop (c :: A).length).length by
              rw [List.length_drop]]
            exact List.take_left _ _
          have e4 : (old ++ t).take (old.length - (c :: A).length)
              = old.take (old.length - (c :: A).length) :=
            List.take_append_of_le_length (Nat.sub_le _ _)
          rw [← e3, hdrop, e4]
        have hlen1 : A.length + 1 < old.length := by simpa using hlen
        have hlen2 : A.length < old.length - 1 := by omega
        have hdropeq2 : old.drop (A.length + 1) = old.take (old.length - (A.length + 1)) := by
          simpa using hdropeq
        exact hbf A.length hlen2 hdropeq2
    have hcons : ¬ old <+: c :: (A ++ old ++ t) := by
      intro hx
      exact hnp (by simpa using hx)
    calc pyReplace ((c :: A) ++ old ++ t) old new
        = pyReplace (c :: (A ++ old ++ t)) old new := by simp
      _ = c :: pyReplace (A ++ old ++ t) old new :=
          pyReplace_cons old new c (A ++ old ++ t) hcons
      _ = c :: (A ++ (new ++ pyReplace t old new)) := by
          rw [ih t (fun hc => h (List.infix_cons hc))]
      _ = (c :: A) ++ (new ++ pyReplace t old new) := by simp

end PyReplaceLemmas

section ListHelpers

/-- Two lists whose first n entries differ force non-prefixhood, even after
appending anything to the second. -/
theorem not_prefix_of_take_ne (a b t : List Char) (n : Nat)
    (hna : n ≤ a.length) (hnb : n ≤ b.length) (hne : a.take n ≠ b.take n) :
    ¬ a <+: b ++ t := by
  intro hp
  rcases hp with ⟨u, hu⟩
  apply hne
  have h1 : (a ++ u).take n = a.take n := List.take_append_of_le_length hna
  have h2 : (b ++ t).take n = b.take n := List.take_append_of_le_length hnb
  rw [← h1, hu, h2]

/-- Variant of not_prefix_of_take_ne without the appended tail. -/
theorem not_prefix_of_take_ne_nil (a b : List Char) (n : Nat)
    (hna : n ≤ a.length) (hnb : n ≤ b.length) (hne : a.take n ≠ b.take n) :
    ¬ a <+: b := by
  intro hp
  exact not_prefix_of_take_ne a b [] n hna hnb hne (by simpa using hp)

/-- takeWhile runs over a block of satisfying entries and stops at a
failing head. -/
theorem takeWhile_append_block (q : Char → Bool) (l : List Char) (c : Char) (t : List Char)
    (hl : ∀ x ∈ l, q x = true) (hc : q c = false) :
    (l ++ c :: t).takeWhile q = l := by
  induction l with
  | nil => simp [List.takeWhile_cons, hc]
  | cons a l ih =>
    have ha : q a = true := hl a (by simp)
    simp only [List.cons_append, List.takeWhile_cons, ha, if_true]
    rw [ih (fun x hx => hl x (by simp [hx]))]

/-- dropWhile counterpart of takeWhile_append_block. -/
theorem dropWhile_append_block (q : Char → Bool) (l : List Char) (c : Char) (t : List Char)
    (hl : ∀ x ∈ l, q x = true) (hc : q c = false) :
    (l ++ c :: t).dropWhile q = c :: t := by
  induction l with
  | nil => simp [List.dropWhile_cons, hc]
  | cons a l ih =>
    have ha : q a = true := hl a (by simp)
    simp only [List.cons_append, List.dropWhile_cons, ha, if_true]
    exact ih (fun x hx => hl x (by simp [hx]))

/-- The head of a dropWhile result fails the predicate. -/
theorem dropWhile_head_false (q : Char → Bool) (l : List Char) (c : Char) (t : List Char)
    (h : l.dropWhile q = c :: t) : q c = false := by
  induction l with
  | nil => simp at h
  | cons a l ih =>
    rw [List.dropWhile_cons] at h
    by_cases ha : q a = true
    · rw [if_pos ha] at h
      exact ih h
    · rw [if_neg ha] at h
      injection h with h1 h2
      subst h1
      cases hqa : q a with
      | false => rfl
      | true => exact absurd hqa ha

end ListHelpers

section TextLineLemmas

/-- textLinesAux emits one line when it scans a break-free block followed
by LF. -/
theorem textLinesAux_line (l : List Char) (hl : '\n' ∉ l) :
    ∀ acc rest, textLinesAux acc (l ++ '\n' :: rest) = (acc.reverse ++ l) :: textLinesAux [] rest := by
  induction l with
  | nil =>
    intro acc rest
    simp [textLinesAux]
  | cons c l ih =>
    intro acc rest
    have hc : (c == '\n') = false := by
      have hne : c ≠ '\n' := fun h => hl (by simp [h])
      simpa using hne
    simp only [List.cons_append, textLinesAux, hc, Bool.false_eq_true, if_false,
      List.append_eq]
    rw [ih (fun h => hl (by simp [h])) (c :: acc) rest]
    simp

/-- textLinesAux on a break-free remainder emits the final fragment. -/
theorem textLinesAux_noBreak (s : List Char) (hs : '\n' ∉ s) :
    ∀ acc, acc ≠ [] ∨ s ≠ [] → textLinesAux acc s = [acc.reverse ++ s] := by
  induction s with
  | nil =>
    intro acc h
    rcases h with h | h
    · cases acc with
      | nil => exact absurd rfl h
      | cons a as => simp [textLinesAux]
    · exact absurd rfl h
  | cons c s ih =>
    intro acc _
    have hc : (c == '\n') = false := by
      have hne : c ≠ '\n' := fun h => hs (by simp [h])
      simpa using hne
    simp only [textLinesAux, hc, Bool.false_eq_true, if_false]
    rw [ih (fun h => hs (by simp [h])) (c :: acc) (Or.inl (by simp))]
    simp

/-- A concatenation of LF-terminated break-free lines splits back into the
lines. -/
theorem textLines_terminated (ls : List (List Char)) (h : ∀ l ∈ ls, '\n' ∉ l) :
    textLines ((ls.map (fun l => l ++ ['\n'])).flatten) = ls := by
  unfold textLines
  induction ls with
  | nil => simp [textLinesAux]
  | cons l ls ih =>
    simp only [List.map_cons, List.flatten_cons]
    have hstep : (l ++ ['\n']) ++ (ls.map (fun l => l ++ ['\n'])).flatten
        = l ++ '\n' :: (ls.map (fun l => l ++ ['\n'])).flatten := by simp
    rw [hstep, textLinesAux_line l (h l (by simp)) [] _]
    simp only [List.reverse_nil, List.nil_append]
    rw [ih (fun x hx => h x (by simp [hx]))]

/-- As textLines_terminated, with one unterminated break-free fragment at
the end. -/
theorem textLines_terminated_last (ls : List (List Char)) (last : List Char)
    (h : ∀ l ∈ ls, '\n' ∉ l) (hlast : '\n' ∉ last) (hne : last ≠ []) :
    textLines ((ls.map (fun l => l ++ ['\n'])).flatten ++ last) = ls ++ [last] := by
  unfold textLines
  induction ls with
  | nil =>
    simp only [List.map_nil, List.flatten_nil, List.nil_append]
    rw [textLinesAux_noBreak last hlast [] (Or.inr hne)]
    simp
  | cons l ls ih =>
    simp only [List.map_cons, List.flatten_cons]
    have hstep : ((l ++ ['\n']) ++ (ls.map (fun l => l ++ ['\n'])).flatten) ++ last
        = l ++ '\n' :: ((ls.map (fun l => l ++ ['\n'])).flatten ++ last) := by simp
    rw [hstep, textLinesAux_line l (h l (by simp)) [] _]
    simp only [List.reverse_nil, List.nil_append]
    rw [ih (fun x hx => h x (by simp [hx]))]
    simp

end TextLineLemmas

section DigitLemmas

/-- No digit character is a line feed. -/
theorem digitChar_ne_newline (n : Nat) : Nat.digitChar n ≠ '\n' := by
  rcases Nat.lt_or_ge n 16 with h | h
  · interval_cases n <;> decide
  · have h16 : Nat.digitChar n = '*' := by
      unfold Nat.digitChar
      repeat rw [if_neg (by omega)]
    rw [h16]
    decide

/-- The digit accumulator of Nat.toDigitsCore never introduces a line
feed. -/
theorem toDigitsCore_no_newline :
    ∀ (f n : Nat) (ds : List Char), (∀ c ∈ ds, c ≠ '\n') →
      ∀ c ∈ Nat.toDigitsCore 10 f n ds, c ≠ '\n' := by
  intro f
  induction f with
  | zero =>
    intro n ds h c hc
    simp only [Nat.toDigitsCore] at hc
    exact h c hc
  | succ f ih =>
    intro n ds h c hc
    simp only [Nat.toDigitsCore] at hc
    split at hc
    · rcases List.mem_cons.mp hc with rfl | hmem
      · exact digitChar_ne_newline _
      · exact h c hmem
    · refine ih (n / 10) (Nat.digitChar (n % 10) :: ds) ?_ c hc
      intro x hx
      rcases List.mem_cons.mp hx with rfl | hx2
      · exact digitChar_ne_newline _
      · exact h x hx2

/-- The decimal rendering of a natural number contains no line feed. -/
theorem toString_nat_no_newline (n : Nat) : '\n' ∉ (toString n).data := by
  intro hmem
  have hdata : (toString n).data = Nat.toDigits 10 n := rfl
  rw [hdata] at hmem
  exact toDigitsCore_no_newline (n + 1) n [] (by simp) '\n' hmem rfl

end DigitLemmas

section SplitlinesLemmas

set_option maxHeartbeats 1000000 in
/-- pySplitlinesAux on a break-free remainder emits the final fragment. -/
theorem pySplitlinesAux_noBreak (s : List Char) (hs : ∀ c ∈ s, isLineBreakChar c = false) :
    ∀ f acc, s.length ≤ f → acc ≠ [] ∨ s ≠ [] → pySplitlinesAux f acc s = [acc.reverse ++ s] := by
  induction s with
  | nil =>
    intro f acc _ h
    rcases h with h | h
    · cases acc with
      | nil => exact absurd rfl h
      | cons a as =>
        have hnil : pySplitlinesAux f (a :: as) [] = [(a :: as).reverse] := by
          cases f <;> rfl
        rw [hnil]
        simp
    · exact absurd rfl h
  | cons c s ih =>
    intro f acc hf _
    cases f with
    | zero => simp at hf
    | succ f =>
      have hc := hs c (by simp)
      simp only [pySplitlinesAux, hc, Bool.false_eq_true, if_false]
      rw [ih (fun x hx => hs x (by simp [hx])) f (c :: acc)
        (by simp only [List.length_cons] at hf; omega) (Or.inl (by simp))]
      simp

/-- A non-empty break-free text is a single splitlines line. -/
theorem pySplitlines_single (s : List Char) (hne : s ≠ [])
    (hs : ∀ c ∈ s, isLineBreakChar c = false) : pySplitlines s = [s] := by
  unfold pySplitlines
  rw [pySplitlinesAux_noBreak s hs s.length [] le_rfl (Or.inr hne)]
  simp

end SplitlinesLemmas

section StripLemmas

/-- Python strip decomposes its input into whitespace margins around the
stripped core, whose first and last characters are not whitespace. -/
theorem pyStrip_decomposition (s : List Char) :
    ∃ pre post, s = pre ++ pyStrip s ++ post
      ∧ (∀ c ∈ pre, pyIsSpace c = true) ∧ (∀ c ∈ post, pyIsSpace c = true)
      ∧ (∀ c t, pyStrip s = c :: t → pyIsSpace c = false)
      ∧ (∀ c t, pyStrip s = t ++ [c] → pyIsSpace c = false) := by
  refine ⟨s.takeWhile pyIsSpace,
    (((s.dropWhile pyIsSpace).reverse).takeWhile pyIsSpace).reverse, ?_, ?_, ?_, ?_, ?_⟩
  · have h2 : s.dropWhile pyIsSpace
        = pyStrip s ++ (((s.dropWhile pyIsSpace).reverse).takeWhile pyIsSpace).reverse := by
      have h3 : (s.dropWhile pyIsSpace).reverse
          = ((s.dropWhile pyIsSpace).reverse).takeWhile pyIsSpace
            ++ ((s.dropWhile pyIsSpace).reverse).dropWhile pyIsSpace :=
        (List.takeWhile_append_dropWhile _ _).symm
      calc s.dropWhile pyIsSpace = ((s.dropWhile pyIsSpace).reverse).reverse :=
            (List.reverse_reverse _).symm
        _ = (((s.dropWhile pyIsSpace).reverse).takeWhile pyIsSpace
              ++ ((s.dropWhile pyIsSpace).reverse).dropWhile pyIsSpace).reverse := by rw [← h3]
        _ = pyStrip s ++ (((s.dropWhile pyIsSpace).reverse).takeWhile pyIsSpace).reverse := by
            rw [List.reverse_append]
            rfl
    calc s = s.takeWhile pyIsSpace ++ s.dropWhile pyIsSpace :=
          (List.takeWhile_append_dropWhile _ _).symm
      _ = s.takeWhile pyIsSpace ++ (pyStrip s
            ++ (((s.dropWhile pyIsSpace).reverse).takeWhile pyIsSpace).reverse) := by rw [← h2]
      _ = s.takeWhile pyIsSpace ++ pyStrip s
            ++ (((s.dropWhile pyIsSpace).reverse).takeWhile pyIsSpace).reverse := by
          rw [List.append_assoc]
  · intro c hc
    exact List.mem_takeWhile_imp hc
  · intro c hc
    exact List.mem_takeWhile_imp (List.mem_reverse.mp hc)
  · intro c t hct
    have hsuf : (pyStrip s).reverse <:+ (s.dropWhile pyIsSpace).reverse := by
      refine ⟨((s.dropWhile pyIsSpace).reverse).takeWhile pyIsSpace, ?_⟩
      have : pyStrip s = (((s.dropWhile pyIsSpace).reverse).dropWhile pyIsSpace).reverse := rfl
      rw [this, List.reverse_reverse]
      exact List.takeWhile_append_dropWhile _ _
    have hpre : pyStrip s <+: s.dropWhile pyIsSpace := List.reverse_suffix.mp hsuf
    rcases hpre with ⟨u, hu⟩
    rw [hct] at hu
    exact dropWhile_head_false pyIsSpace s c (t ++ u) (by rw [← hu]; simp)
  · intro c t hct
    have hrev : ((s.dropWhile pyIsSpace).reverse).dropWhile pyIsSpace = c :: t.reverse := by
      have : ((s.dropWhile pyIsSpace).reverse).dropWhile pyIsSpace = (pyStrip s).reverse := by
        have h4 : pyStrip s = (((s.dropWhile pyIsSpace).reverse).dropWhile pyIsSpace).reverse := rfl
        rw [h4, List.reverse_reverse]
      rw [this, hct]
      simp
    exact dropWhile_head_false pyIsSpace ((s.dropWhile pyIsSpace).reverse) c t.reverse hrev

end StripLemmas

section PrefixComputation

/-- isPrefixOf holds for a factor at the front. -/
theorem isPrefixOf_append_self (a s : List Char) : a.isPrefixOf (a ++ s) = true :=
  List.isPrefixOf_iff_prefix.mpr (List.prefix_append a s)

/-- isPrefixOf holds whenever the target factors through the pattern. -/
theorem isPrefixOf_of_eq_append (a X t : List Char) (h : X = a ++ t) :
    a.isPrefixOf X = true := by
  subst h
  exact isPrefixOf_append_self a t

/-- isPrefixOf fails when the first n characters already disagree. -/
theorem isPrefixOf_false_of_take_ne (a b s : List Char) (n : Nat)
    (hna : n ≤ a.length) (hnb : n ≤ b.length) (hne : a.take n ≠ b.take n) :
    a.isPrefixOf (b ++ s) = false := by
  cases h : a.isPrefixOf (b ++ s) with
  | false => rfl
  | true =>
    exact absurd ( List.isPrefixOf_iff_prefix.mp h)
      (not_prefix_of_take_ne a b s n hna hnb hne)

/-- A non-empty list stays non-empty after an append. -/
theorem isEmpty_false_append (a s : List Char) (h : a ≠ []) : (a ++ s).isEmpty = false := by
  cases a with
  | nil => exact absurd rfl h
  | cons x xs => rfl

/-- The release-branch namespace prefix cannot start a remote-tracking ref
of a slash-free remote other than the literal branch-heads. -/
theorem bhPrefix_false_remote (remote tail : List Char) (hslash : '/' ∉ remote)
    (hbh : remote ≠ "branch-heads".data) :
    ("refs/remotes/branch-heads/".data).isPrefixOf
      ("refs/remotes/".data ++ remote ++ "/".data ++ tail) = false := by
  cases h : ("refs/remotes/branch-heads/".data).isPrefixOf
      ("refs/remotes/".data ++ remote ++ "/".data ++ tail) with
  | false => rfl
  | true =>
    exfalso
    have hp := List.isPrefixOf_iff_prefix.mp h
    have e1 : "refs/remotes/branch-heads/".data
        = "refs/remotes/".data ++ "branch-heads/".data := by decide
    have e2 : "refs/remotes/".data ++ remote ++ "/".data ++ tail
        = "refs/remotes/".data ++ (remote ++ '/' :: tail) := by
      rw [show "/".data = ['/'] from rfl]
      simp [List.append_assoc]
    rw [e1, e2] at hp
    have hp2 : "branch-heads/".data <+: remote ++ '/' :: tail :=
      (List.prefix_append_right_inj _).mp hp
    rcases hp2 with ⟨u, hu⟩
    have e3 : "branch-heads/".data ++ u = "branch-heads".data ++ '/' :: u := by
      rw [show "branch-heads/".data = "branch-heads".data ++ ['/'] by decide]
      simp
    rw [e3] at hu
    have tw1 : ("branch-heads".data ++ '/' :: u).takeWhile (fun c => c != '/')
        = "branch-heads".data :=
      takeWhile_append_block _ _ _ _ (by decide) (by decide)
    have tw2 : (remote ++ '/' :: tail).takeWhile (fun c => c != '/') = remote :=
      takeWhile_append_block _ _ _ _
        (fun x hx => by
          have hxs : x ≠ '/' := fun he => hslash (he ▸ hx)
          simpa using hxs)
        (by decide)
    rw [hu, tw2] at tw1
    exact hbh tw1

end PrefixComputation

section TranslatorComputation

/-- Stripping a leading occurrence of a pattern that does not reoccur. -/
theorem pyReplace_consumeLead (pat t : List Char) (hold : pat ≠ []) (h : ¬ pat <:+: t) :
    pyReplace (pat ++ t) pat [] = t := by
  rw [pyReplace_append pat [] t hold, pyReplace_not_infix pat [] t h]
  rfl

/-- RemoteRefToRef maps the canonical release-branch remote namespace to
the local release-branch namespace. -/
theorem remoteRefToRef_bh_eval (remote s : List Char) :
    GIT.RemoteRefToRef ("refs/remotes/branch-heads/".data ++ s) remote
      = some ("refs/branch-heads/".data ++ s) := by
  have hempty := isEmpty_false_append ("refs/remotes/branch-heads/".data) s (by decide)
  have h1 : ("refs/".data).isPrefixOf ("refs/remotes/branch-heads/".data ++ s) = true :=
    isPrefixOf_of_eq_append _ _ ("remotes/branch-heads/".data ++ s) (by
      rw [show "refs/remotes/branch-heads/".data
          = "refs/".data ++ "remotes/branch-heads/".data by decide, List.append_assoc])
  have h2 : ("refs/remotes/".data).isPrefixOf ("refs/remotes/branch-heads/".data ++ s) = true :=
    isPrefixOf_of_eq_append _ _ ("branch-heads/".data ++ s) (by
      rw [show "refs/remotes/branch-heads/".data
          = "refs/remotes/".data ++ "branch-heads/".data by decide, List.append_assoc])
  have h3 := isPrefixOf_append_self ("refs/remotes/branch-heads/".data) s
  have hdrop : ("refs/remotes/branch-heads/".data ++ s).drop (("refs/remotes".data).length)
      = "/branch-heads/".data ++ s := by
    conv_lhs => rw [show "refs/remotes/branch-heads/".data ++ s
        = "refs/remotes".data ++ ("/branch-heads/".data ++ s) by
      rw [show "refs/remotes/branch-heads/".data
          = "refs/remotes".data ++ "/branch-heads/".data by decide, List.append_assoc]]
    exact List.drop_left _ _
  unfold GIT.RemoteRefToRef
  rw [hempty, h1, h2, h3, hdrop]
  simp only [Bool.not_true, Bool.or_false, Bool.false_eq_true, if_false, if_true]
  rw [show "refs/branch-heads/".data ++ s = "refs".data ++ ("/branch-heads/".data ++ s) by
    rw [show "refs/branch-heads/".data = "refs".data ++ "/branch-heads/".data by decide,
      List.append_assoc]]

/-- RemoteRefToRef maps the canonical remote-tracking namespace of a plain
remote name to the local heads namespace. -/
theorem remoteRefToRef_remote_eval (remote s : List Char) (hslash : '/' ∉ remote)
    (hbh : remote ≠ "branch-heads".data) :
    GIT.RemoteRefToRef ("refs/remotes/".data ++ remote ++ "/".data ++ s) remote
      = some ("refs/heads/".data ++ s) := by
  have hempty : (("refs/remotes/".data ++ remote ++ "/".data ++ s)).isEmpty = false := by
    have : ("refs/remotes/".data ++ remote ++ "/".data ++ s)
        = "refs/remotes/".data ++ (remote ++ "/".data ++ s) := by
      simp [List.append_assoc]
    rw [this]
    exact isEmpty_false_append _ _ (by decide)
  have h1 : ("refs/".data).isPrefixOf ("refs/remotes/".data ++ remote ++ "/".data ++ s) = true :=
    isPrefixOf_of_eq_append _ _ ("remotes/".data ++ (remote ++ "/".data ++ s)) (by
      rw [show "refs/remotes/".data = "refs/".data ++ "remotes/".data by decide]
      simp [List.append_assoc])
  have h2 : ("refs/remotes/".data).isPrefixOf
      ("refs/remotes/".data ++ remote ++ "/".data ++ s) = true :=
    isPrefixOf_of_eq_append _ _ (remote ++ "/".data ++ s) (by simp [List.append_assoc])
  have h3 := bhPrefix_false_remote remote s hslash hbh
  have h4 : ("refs/remotes/".data ++ remote ++ "/".data).isPrefixOf
      ("refs/remotes/".data ++ remote ++ "/".data ++ s) = true :=
    isPrefixOf_append_self _ s
  have hdrop : ("refs/remotes/".data ++ remote ++ "/".data ++ s).drop
      (("refs/remotes/".data ++ remote).length) = '/' :: s := by
    conv_lhs => rw [show "refs/remotes/".data ++ remote ++ "/".data ++ s
        = ("refs/remotes/".data ++ remote) ++ ('/' :: s) by simp [List.append_assoc]]
    exact List.drop_left _ _
  unfold GIT.RemoteRefToRef
  rw [hempty, h1, h2, h3, h4, hdrop]
  simp only [Bool.not_true, Bool.or_false, Bool.false_eq_true, if_false, if_true]
  rw [show "refs/heads/".data ++ s = "refs/heads".data ++ ('/' :: s) by
    rw [show "refs/heads/".data = "refs/heads".data ++ ['/'] by decide]
    simp]

/-- The release-branch regex on the fully qualified variant. -/
theorem matchBranchHeads_eval_full (s : List Char) :
    GIT.matchBranchHeads ("refs/remotes/branch-heads/".data ++ s)
      = some ("refs/remotes/branch-heads/".data) := by
  unfold GIT.matchBranchHeads GIT.bhPrefixCandidates
  exact List.find?_cons_of_pos _ (isPrefixOf_append_self _ s)

/-- The release-branch regex on the refs-qualified variant. -/
theorem matchBranchHeads_eval_refs (s : List Char) :
    GIT.matchBranchHeads ("refs/branch-heads/".data ++ s)
      = some ("refs/branch-heads/".data) := by
  unfold GIT.matchBranchHeads GIT.bhPrefixCandidates
  rw [List.find?_cons_of_neg _ (by
    rw [isPrefixOf_false_of_take_ne _ _ s 6 (by decide) (by decide) (by decide)]
    simp)]
  exact List.find?_cons_of_pos _ (isPrefixOf_append_self _ s)

/-- The release-branch regex on the bare variant. -/
theorem matchBranchHeads_eval_bare (s : List Char) :
    GIT.matchBranchHeads ("branch-heads/".data ++ s)
      = some ("branch-heads/".data) := by
  unfold GIT.matchBranchHeads GIT.bhPrefixCandidates
  rw [List.find?_cons_of_neg _ (by
    rw [isPrefixOf_false_of_take_ne _ _ s 1 (by decide) (by decide) (by decide)]
    simp)]
  rw [List.find?_cons_of_neg _ (by
    rw [isPrefixOf_false_of_take_ne _ _ s 1 (by decide) (by decide) (by decide)]
    simp)]
  exact List.find?_cons_of_pos _ (isPrefixOf_append_self _ s)

end TranslatorComputation

section ClaimC10

/-- C10: ShortBranchName removes every occurrence of "refs/heads/" found in
a left-to-right scan, anywhere in the input, not only a leading namespace
prefix: an occurrence-free string is returned unchanged, and strings with
occurrences in non-leading positions have them all deleted. -/
theorem C10_shortBranchName_removes_all :
    (∀ b, ¬ ("refs/heads/".data) <:+: b → GIT.ShortBranchName b = b)
    ∧ (∀ u v w, ¬ ("refs/heads/".data) <:+: u → ¬ ("refs/heads/".data) <:+: v →
        ¬ ("refs/heads/".data) <:+: w →
        GIT.ShortBranchName (u ++ "refs/heads/".data ++ v ++ "refs/heads/".data ++ w)
          = u ++ v ++ w)
    ∧ GIT.ShortBranchName ("refs/heads/refs/heads/x".data) = "x".data
    ∧ GIT.ShortBranchName ("foo/refs/heads/bar".data) = "foo/bar".data := by
  have hbf : borderFree ("refs/heads/".data) := by
    unfold borderFree
    decide
  have hne : ("refs/heads/".data) ≠ [] := by decide
  refine ⟨?_, ?_, by decide, by decide⟩
  · intro b hb
    exact pyReplace_not_infix _ [] b hb
  · intro u v w hu hv hw
    unfold GIT.ShortBranchName
    have e : u ++ "refs/heads/".data ++ v ++ "refs/heads/".data ++ w
        = u ++ "refs/heads/".data ++ (v ++ "refs/heads/".data ++ w) := by
      simp [List.append_assoc]
    rw [e, pyReplace_span _ [] hne hbf u _ hu, pyReplace_span _ [] hne hbf v w hv,
      pyReplace_not_infix _ [] w hw]
    simp

/-- Witness for C10 at concrete inputs. -/
theorem C10_witness :
    GIT.ShortBranchName ("main".data) = "main".data
    ∧ GIT.ShortBranchName ("foo/refs/heads/bar".data) = "foo/bar".data :=
  ⟨C10_shortBranchName_removes_all.1 ("main".data) (by decide),
   C10_shortBranchName_removes_all.2.2.2⟩

end ClaimC10

section ClaimC6

/-- C6 (amended): on release-branch refs whose suffix does not itself
contain the substring "branch-heads/", RefToRemoteRef ignores the remote
argument and maps every namespace variant of the same ref to the identical
pair of the canonical release-branch prefix and the suffix. -/
theorem C6_branchHeads_remote_agnostic (s m : List Char)
    (hs : ¬ ("branch-heads/".data) <:+: s) :
    GIT.RefToRemoteRef ("refs/remotes/branch-heads/".data ++ s) m
      = some ("refs/remotes/branch-heads/".data, s)
    ∧ GIT.RefToRemoteRef ("refs/branch-heads/".data ++ s) m
      = some ("refs/remotes/branch-heads/".data, s)
    ∧ GIT.RefToRemoteRef ("branch-heads/".data ++ s) m
      = some ("refs/remotes/branch-heads/".data, s) := by
  have h26 : ¬ ("refs/remotes/branch-heads/".data) <:+: s := by
    intro hc
    exact hs ((show ("branch-heads/".data) <:+: ("refs/remotes/branch-heads/".data) from
      ⟨"refs/remotes/".data, [], by decide⟩).trans hc)
  have h18 : ¬ ("refs/branch-heads/".data) <:+: s := by
    intro hc
    exact hs ((show ("branch-heads/".data) <:+: ("refs/branch-heads/".data) from
      ⟨"refs/".data, [], by decide⟩).trans hc)
  refine ⟨?_, ?_, ?_⟩
  · unfold GIT.RefToRemoteRef
    simp only [matchBranchHeads_eval_full s]
    rw [pyReplace_consumeLead _ s (by decide) h26]
  · unfold GIT.RefToRemoteRef
    simp only [matchBranchHeads_eval_refs s]
    rw [pyReplace_consumeLead _ s (by decide) h18]
  · unfold GIT.RefToRemoteRef
    simp only [matchBranchHeads_eval_bare s]
    rw [pyReplace_consumeLead _ s (by decide) hs]

/-- C6 counterexample: when the suffix itself contains "branch-heads/",
two namespace variants of the same release-branch ref produce different
pairs, refuting the claimed identity across variants. -/
theorem C6_counterexample :
    GIT.RefToRemoteRef ("refs/remotes/branch-heads/branch-heads/x".data) ("origin".data)
      = some ("refs/remotes/branch-heads/".data, "branch-heads/x".data)
    ∧ GIT.RefToRemoteRef ("branch-heads/branch-heads/x".data) ("anything".data)
      = some ("refs/remotes/branch-heads/".data, "x".data)
    ∧ ("branch-heads/x".data : List Char) ≠ "x".data :=
  ⟨by decide, by decide, by decide⟩

/-- Witness for C6 at the spec inputs. -/
theorem C6_witness :
    GIT.RefToRemoteRef ("refs/remotes/branch-heads/1.2".data) ("origin".data)
      = some ("refs/remotes/branch-heads/".data, "1.2".data)
    ∧ GIT.RefToRemoteRef ("branch-heads/1.2".data) ("anything".data)
      = some ("refs/remotes/branch-heads/".data, "1.2".data) :=
  ⟨(C6_branchHeads_remote_agnostic ("1.2".data) ("origin".data) (by decide)).1,
   (C6_branchHeads_remote_agnostic ("1.2".data) ("anything".data) (by decide)).2.2⟩

end ClaimC6

section ClaimC3

/-- C3 (amended): the returned prefix and suffix concatenate back to the
original ref exactly on those refs that already start with the returned
canonical prefix and in which that prefix does not reoccur after it. -/
theorem C3_prefix_suffix_roundtrip (r remote p s : List Char)
    (h : GIT.RefToRemoteRef r remote = some (p, s))
    (hpre : p <+: r) (honce : ¬ p <:+: r.drop p.length) :
    p ++ s = r := by
  rcases hpre with ⟨t, ht⟩
  subst ht
  rw [List.drop_left] at honce
  unfold GIT.RefToRemoteRef at h
  cases hm : GIT.matchBranchHeads (p ++ t) with
  | some m0 =>
    simp only [hm] at h
    injection h with h2
    injection h2 with hp hs
    subst hp
    have hm2 := matchBranchHeads_eval_full t
    rw [hm] at hm2
    injection hm2 with hm0
    subst hm0
    rw [← hs, pyReplace_consumeLead _ t (by decide) honce]
  | none =>
    simp only [hm] at h
    cases hm2 : GIT.matchRemoteOrHeads (p ++ t) remote with
    | none =>
      simp only [hm2] at h
      exact Option.noConfusion h
    | some m0 =>
      simp only [hm2] at h
      injection h with h2
      injection h2 with hp hs
      subst hp
      have hm3 : GIT.matchRemoteOrHeads
          (("refs/remotes/".data ++ remote ++ "/".data) ++ t) remote
          = some ("refs/remotes/".data ++ remote ++ "/".data) := by
        unfold GIT.matchRemoteOrHeads GIT.remotePrefixCandidates
        exact List.find?_cons_of_pos _ (isPrefixOf_append_self _ t)
      rw [hm2] at hm3
      injection hm3 with hm0
      subst hm0
      rw [← hs, pyReplace_consumeLead _ t (by simp) honce]

/-- C3 counterexample: on a bare release-branch ref the returned prefix and
suffix concatenate to the namespace-normalised ref, not to the original
input. -/
theorem C3_counterexample :
    GIT.RefToRemoteRef ("branch-heads/1.2".data) ("origin".data)
      = some ("refs/remotes/branch-heads/".data, "1.2".data)
    ∧ "refs/remotes/branch-heads/".data ++ "1.2".data ≠ "branch-heads/1.2".data :=
  ⟨by decide, by decide⟩

/-- Witness for C3 at a concrete canonical input. -/
theorem C3_witness :
    ("refs/remotes/origin/".data : List Char) ++ "foo".data
      = "refs/remotes/origin/foo".data :=
  C3_prefix_suffix_roundtrip ("refs/remotes/origin/foo".data) ("origin".data)
    ("refs/remotes/origin/".data) ("foo".data) (by decide) (by decide) (by decide)

end ClaimC3

section ClaimC1

/-- C1 (amended): for a plain remote name (non-empty, slash-free, not the
literal branch-heads), every ref recognised by RefToRemoteRef whose
returned suffix reattaches under one of the recognised namespace prefixes
to give back the original ref translates through RemoteRefToRef, applied
to the joined pair, to a local-namespace form refs/branch-heads/<suffix>
or refs/heads/<suffix> carrying the same branch suffix as the original. -/
theorem C1_roundtrip (r remote p s : List Char)
    (_hrem : remote ≠ []) (hslash : '/' ∉ remote) (hbh : remote ≠ "branch-heads".data)
    (h : GIT.RefToRemoteRef r remote = some (p, s))
    (hns : ∃ ns ∈ GIT.nsCandidates remote, ns ++ s = r) :
    ∃ l b, GIT.RemoteRefToRef (p ++ s) remote = some l
      ∧ (∃ ns ∈ GIT.nsCandidates remote, ns ++ b = r)
      ∧ (l = "refs/branch-heads/".data ++ b ∨ l = "refs/heads/".data ++ b) := by
  unfold GIT.RefToRemoteRef at h
  cases hm : GIT.matchBranchHeads r with
  | some m0 =>
    simp only [hm] at h
    injection h with h2
    injection h2 with hp hs
    refine ⟨"refs/branch-heads/".data ++ s, s, ?_, hns, Or.inl rfl⟩
    rw [← hp]
    exact remoteRefToRef_bh_eval remote s
  | none =>
    simp only [hm] at h
    cases hm2 : GIT.matchRemoteOrHeads r remote with
    | none =>
      simp only [hm2] at h
      exact Option.noConfusion h
    | some m0 =>
      simp only [hm2] at h
      injection h with h2
      injection h2 with hp hs
      refine ⟨"refs/heads/".data ++ s, s, ?_, hns, Or.inr rfl⟩
      rw [← hp]
      exact remoteRefToRef_remote_eval remote s hslash hbh

/-- C1 counterexample: the ref heads/heads/x is recognised, but the
replace-all semantics of the suffix computation drops the inner heads/
segment, so no namespace reading of the original ref carries the branch
suffix that the reconstructed local form refs/heads/x carries. -/
theorem C1_counterexample :
    GIT.RefToRemoteRef ("heads/heads/x".data) ("origin".data)
      = some ("refs/remotes/origin/".data, "x".data)
    ∧ GIT.RemoteRefToRef ("refs/remotes/origin/x".data) ("origin".data)
      = some ("refs/heads/x".data)
    ∧ (∀ ns ∈ GIT.nsCandidates ("origin".data),
        ns.isPrefixOf ("heads/heads/x".data) = true →
        ("refs/branch-heads/".data ++ ("heads/heads/x".data).drop ns.length
            ≠ "refs/heads/x".data
         ∧ "refs/heads/".data ++ ("heads/heads/x".data).drop ns.length
            ≠ "refs/heads/x".data)) :=
  ⟨by decide, by decide, by decide⟩

/-- Witness for C1 at a concrete local-branch ref. -/
theorem C1_witness :
    ∃ l b, GIT.RemoteRefToRef ("refs/remotes/origin/".data ++ "foo".data) ("origin".data)
        = some l
      ∧ (∃ ns ∈ GIT.nsCandidates ("origin".data), ns ++ b = "refs/heads/foo".data)
      ∧ (l = "refs/branch-heads/".data ++ b ∨ l = "refs/heads/".data ++ b) :=
  C1_roundtrip ("refs/heads/foo".data) ("origin".data) ("refs/remotes/origin/".data)
    ("foo".data) (by decide) (by decide) (by decide) (by decide) (by decide)

end ClaimC1

section ClaimC2

/-- C2: when no branch-scoped merge config is truthy and the legacy
rietveld upstream config is not truthy, FetchUpstreamTuple falls back on
the enumerated remote branches in a fixed order: origin/main wins, then
origin/master, then (None, None). -/
theorem C2_fetchUpstream_fallback (st : GitConfigState) (branchArg : Option (List Char))
    (hmerge : ∀ b, pyTruthy (st.config ("branch.".data ++ b ++ ".merge".data)) = none)
    (hriet : pyTruthy (st.config ("rietveld.upstream-branch".data)) = none) :
    (("origin/main".data ∈ st.remoteBranches →
        GIT.FetchUpstreamTuple st branchArg
          = (some ("origin".data), some ("refs/heads/main".data)))
     ∧ ("origin/main".data ∉ st.remoteBranches → "origin/master".data ∈ st.remoteBranches →
        GIT.FetchUpstreamTuple st branchArg
          = (some ("origin".data), some ("refs/heads/master".data)))
     ∧ ("origin/main".data ∉ st.remoteBranches → "origin/master".data ∉ st.remoteBranches →
        GIT.FetchUpstreamTuple st branchArg = (none, none))) := by
  have hfb : GIT.FetchUpstreamTuple st branchArg = GIT.fetchUpstreamFallback st := by
    unfold GIT.FetchUpstreamTuple
    cases hb : pyTruthy (match pyTruthy branchArg with
        | some b => some b
        | none => st.currentBranch) with
    | none => simp only [hb]
    | some b => simp only [hb, hmerge b]
  rw [hfb]
  unfold GIT.fetchUpstreamFallback
  rw [hriet]
  refine ⟨?_, ?_, ?_⟩
  · intro h1
    simp [h1]
  · intro h1 h2
    simp [h1, h2]
  · intro h1 h2
    simp [h1, h2]

/-- Witness for C2: a state with no config and only origin/main. -/
theorem C2_witness :
    GIT.FetchUpstreamTuple
      { currentBranch := none, config := fun _ => none,
        remoteBranches := ["origin/main".data] } none
      = (some ("origin".data), some ("refs/heads/main".data)) :=
  (C2_fetchUpstream_fallback
    { currentBranch := none, config := fun _ => none,
      remoteBranches := ["origin/main".data] }
    none (fun _ => rfl) rfl).1 (by simp)

end ClaimC2

section ClaimC4

/-- C4 (amended): when the checkout exists and the HEAD mirror of the
remote resolves, the resolved ref is trusted and returned immediately if
and only if the control test of the source holds, namely that the resolved
ref does not end with the string "master"; when it does end with "master",
the set-head refresh and the second read are consulted instead. -/
theorem C4_localMirror_trust (remote ref : List Char) (env : RemoteHeadEnv)
    (hcwd : env.cwdExists = true) (href : env.symbolicRefHead = some ref) :
    ((("master".data).isSuffixOf ref = false → GIT.GetRemoteHeadRef remote env = .ok ref)
     ∧ (("master".data).isSuffixOf ref = true →
        GIT.GetRemoteHeadRef remote env
          = match (if env.setHeadOk then env.symbolicRefSecond else none) with
            | some r2 => .ok r2
            | none => GIT.remoteHeadNetworkPhase remote env)) := by
  constructor
  · intro hm
    simp only [GIT.GetRemoteHeadRef, GIT.remoteHeadLocalPhase, hcwd, href, hm,
      Bool.not_false, if_true]
  · intro hm
    simp only [GIT.GetRemoteHeadRef, GIT.remoteHeadLocalPhase, hcwd, href, hm,
      Bool.not_true, Bool.false_eq_true, if_false, if_true]

/-- C4 counterexample: a mirror ref whose branch component is xmaster, not
master, still triggers the refresh path because the source tests only the
string suffix, so the mirror value is not returned. -/
theorem C4_counterexample :
    GIT.GetRemoteHeadRef ("origin".data)
      { cwdExists := true,
        symbolicRefHead := some ("refs/remotes/origin/xmaster".data),
        setHeadOk := true,
        symbolicRefSecond := some ("refs/remotes/origin/fixed".data),
        lsRemote := none }
      = .ok ("refs/remotes/origin/fixed".data)
    ∧ ("refs/remotes/origin/fixed".data : List Char) ≠ "refs/remotes/origin/xmaster".data
    ∧ ((("refs/remotes/origin/xmaster".data).reverse.takeWhile (fun c => c != '/')).reverse
        : List Char) ≠ "master".data :=
  ⟨by rfl, by decide, by decide⟩

/-- Witness for C4: a mirror pointing at main is returned unchanged. -/
theorem C4_witness :
    GIT.GetRemoteHeadRef ("origin".data)
      { cwdExists := true,
        symbolicRefHead := some ("refs/remotes/origin/main".data),
        setHeadOk := false,
        symbolicRefSecond := none,
        lsRemote := none }
      = .ok ("refs/remotes/origin/main".data) :=
  (C4_localMirror_trust ("origin".data) ("refs/remotes/origin/main".data)
    { cwdExists := true,
      symbolicRefHead := some ("refs/remotes/origin/main".data),
      setHeadOk := false,
      symbolicRefSecond := none,
      lsRemote := none } rfl rfl).1 (by decide)

end ClaimC4

section ClaimC5

/-- C5 (amended): command failures never propagate out of GetRemoteHeadRef:
whenever every symref line matched in the ls-remote response translates to
a recognised ref, the operation returns some ref; and when every strategy
is exhausted — the local-mirror phase falls through and the network query
either fails or yields no matching symref line — the returned ref is the
default refs/remotes/<remote>/main.  The proviso on the first part is
necessary: a matched but unrecognised symref target raises a TypeError
instead, as the counterexample shows. -/
theorem C5_always_returns (remote : List Char) (env : RemoteHeadEnv)
    (h : ∀ resp, env.lsRemote = some resp →
        ∀ t, (resp.splitOn '\n').findSome? GIT.symrefLineMatch = some t →
        GIT.RefToRemoteRef t remote ≠ none) :
    (∃ r, GIT.GetRemoteHeadRef remote env = .ok r)
    ∧ (GIT.remoteHeadLocalPhase env = none → env.lsRemote = none →
        GIT.GetRemoteHeadRef remote env
          = .ok ("refs/remotes/".data ++ remote ++ "/main".data))
    ∧ (GIT.remoteHeadLocalPhase env = none → ∀ resp, env.lsRemote = some resp →
        (resp.splitOn '\n').findSome? GIT.symrefLineMatch = none →
        GIT.GetRemoteHeadRef remote env
          = .ok ("refs/remotes/".data ++ remote ++ "/main".data)) := by
  refine ⟨?_, ?_, ?_⟩
  · have hnet : (∃ r, GIT.remoteHeadNetworkPhase remote env = .ok r) := by
      unfold GIT.remoteHeadNetworkPhase
      rcases hls : env.lsRemote with _ | resp
      · exact ⟨"refs/remotes/".data ++ remote ++ "/main".data, rfl⟩
      · show ∃ r, (match (resp.splitOn '\n').findSome? GIT.symrefLineMatch with
          | some target =>
            match GIT.RefToRemoteRef target remote with
            | some (p, s) => Except.ok (p ++ s)
            | none => Except.error PyError.typeError
          | none => Except.ok ("refs/remotes/".data ++ remote ++ "/main".data))
          = Except.ok r
        rcases hfm : (resp.splitOn '\n').findSome? GIT.symrefLineMatch with _ | t
        · exact ⟨"refs/remotes/".data ++ remote ++ "/main".data, rfl⟩
        · show ∃ r, (match GIT.RefToRemoteRef t remote with
            | some (p, s) => Except.ok (p ++ s)
            | none => Except.error PyError.typeError) = Except.ok r
          rcases hrr : GIT.RefToRemoteRef t remote with _ | pr
          · exact absurd hrr (h resp hls t hfm)
          · rcases pr with ⟨p, q⟩
            exact ⟨p ++ q, rfl⟩
    unfold GIT.GetRemoteHeadRef
    cases GIT.remoteHeadLocalPhase env with
    | some ref => exact ⟨ref, rfl⟩
    | none =>
      obtain ⟨r, hr⟩ := hnet
      exact ⟨r, hr⟩
  · intro hloc hls
    unfold GIT.GetRemoteHeadRef
    rw [hloc]
    show GIT.remoteHeadNetworkPhase remote env
        = .ok ("refs/remotes/".data ++ remote ++ "/main".data)
    unfold GIT.remoteHeadNetworkPhase
    rw [hls]
  · intro hloc resp hls hfm
    unfold GIT.GetRemoteHeadRef
    rw [hloc]
    show GIT.remoteHeadNetworkPhase remote env
        = .ok ("refs/remotes/".data ++ remote ++ "/main".data)
    unfold GIT.remoteHeadNetworkPhase
    rw [hls]
    show (match (resp.splitOn '\n').findSome? GIT.symrefLineMatch with
        | some target =>
          match GIT.RefToRemoteRef target remote with
          | some (p, s) => Except.ok (p ++ s)
          | none => Except.error PyError.typeError
        | none => Except.ok ("refs/remotes/".data ++ remote ++ "/main".data))
        = Except.ok ("refs/remotes/".data ++ remote ++ "/main".data)
    rw [hfm]

/-- C5 counterexample: a symref response naming a target that
RefToRemoteRef does not recognise makes the operation raise a TypeError
instead of returning a ref, refuting the claim that every input yields
some ref. -/
theorem C5_counterexample :
    GIT.GetRemoteHeadRef ("origin".data)
      { cwdExists := false, symbolicRefHead := none, setHeadOk := false,
        symbolicRefSecond := none, lsRemote := some ("ref: 0123\tHEAD".data) }
      = .error .typeError := by
  rfl

/-- Witness for C5: with no working copy and a failed ls-remote the
operation returns a ref, namely the default refs/remotes/origin/main. -/
theorem C5_witness :
    (∃ r, GIT.GetRemoteHeadRef ("origin".data)
      { cwdExists := false, symbolicRefHead := none, setHeadOk := false,
        symbolicRefSecond := none, lsRemote := none } = .ok r)
    ∧ GIT.GetRemoteHeadRef ("origin".data)
      { cwdExists := false, symbolicRefHead := none, setHeadOk := false,
        symbolicRefSecond := none, lsRemote := none }
      = .ok ("refs/remotes/origin/main".data) :=
  ⟨(C5_always_returns ("origin".data)
      { cwdExists := false, symbolicRefHead := none, setHeadOk := false,
        symbolicRefSecond := none, lsRemote := none }
      (fun _ hresp _ _ => Option.noConfusion hresp)).1,
   (C5_always_returns ("origin".data)
      { cwdExists := false, symbolicRefHead := none, setHeadOk := false,
        symbolicRefSecond := none, lsRemote := none }
      (fun _ hresp _ _ => Option.noConfusion hresp)).2.1 rfl rfl⟩

end ClaimC5

section ClaimC7

/-- Word characters are not line-break characters. -/
theorem wordChar_not_break (c : Char) (h : GIT.isWordChar c = true) :
    isLineBreakChar c = false := by
  cases hb : isLineBreakChar c with
  | false => rfl
  | true =>
    exfalso
    simp only [isLineBreakChar, Bool.or_eq_true, beq_iff_eq, or_assoc] at hb
    rcases hb with h1 | h1 | h1 | h1 | h1 | h1 | h1 | h1 | h1 | h1 <;>
      (subst h1; exact absurd h (by decide))

/-- C7: CaptureStatus parses a line of the shape word TAB path into the
pair of the one status letter (the last repetition of the regex group,
whose first character is itself) padded with six spaces and the path, and
raises a domain error on any line that does not have that shape. -/
theorem C7_captureStatus (w p : List Char)
    (hw : w ≠ []) (hwall : ∀ c ∈ w, GIT.isWordChar c = true)
    (hp : p ≠ []) (hpl : ∀ c ∈ p, isLineBreakChar c = false) :
    GIT.CaptureStatus (w ++ '\t' :: p)
      = .ok [(w.getLastD ' ' :: List.replicate 6 ' ', p)]
    ∧ ∀ line, line ≠ [] → (∀ c ∈ line, isLineBreakChar c = false) →
        (∀ w2 p2, line = w2 ++ '\t' :: p2 → w2 ≠ [] →
          (∀ c ∈ w2, GIT.isWordChar c = true) → p2 = []) →
        GIT.CaptureStatus line = .error line := by
  constructor
  · have hnb : ∀ c ∈ w ++ '\t' :: p, isLineBreakChar c = false := by
      intro c hc
      rcases List.mem_append.mp hc with hcw | hcp
      · exact wordChar_not_break c (hwall c hcw)
      · rcases List.mem_cons.mp hcp with rfl | hcp2
        · decide
        · exact hpl c hcp2
    have hne : w ++ '\t' :: p ≠ [] := by
      cases w with
      | nil => exact absurd rfl hw
      | cons a as => simp
    have hemp : (w ++ '\t' :: p).isEmpty = false := isEmpty_false_append w ('\t' :: p) hw
    have htw : (w ++ '\t' :: p).takeWhile GIT.isWordChar = w :=
      takeWhile_append_block _ _ _ _ hwall (by decide)
    have hdw : (w ++ '\t' :: p).dropWhile GIT.isWordChar = '\t' :: p :=
      dropWhile_append_block _ _ _ _ hwall (by decide)
    have hwe : w.isEmpty = false := by
      cases w with
      | nil => exact absurd rfl hw
      | cons a as => rfl
    have hpe : p.isEmpty = false := by
      cases p with
      | nil => exact absurd rfl hp
      | cons a as => rfl
    have hmatch : GIT.statusLineMatch (w ++ '\t' :: p) = some (w, p) := by
      unfold GIT.statusLineMatch
      rw [htw, hdw, hwe]
      simp only [Bool.false_eq_true, if_false, hpe, Bool.not_false, Bool.and_true, beq_self_eq_true,
        if_true]
    unfold GIT.CaptureStatus
    rw [hemp, pySplitlines_single _ hne hnb]
    unfold GIT.parseStatusLines
    simp only [hmatch]
    rfl
  · intro line hne hnb hshape
    have hemp : line.isEmpty = false := by
      cases line with
      | nil => exact absurd rfl hne
      | cons a as => rfl
    have hmn : GIT.statusLineMatch line = none := by
      cases hsm : GIT.statusLineMatch line with
      | none => rfl
      | some pr =>
        exfalso
        unfold GIT.statusLineMatch at hsm
        by_cases hw0e : (line.takeWhile GIT.isWordChar).isEmpty = true
        · rw [hw0e] at hsm
          simp at hsm
        · rw [Bool.not_eq_true] at hw0e
          rw [hw0e] at hsm
          simp only [Bool.false_eq_true, if_false] at hsm
          cases hdw : line.dropWhile GIT.isWordChar with
          | nil =>
            simp only [hdw] at hsm
            exact Option.noConfusion hsm
          | cons c rest =>
            simp only [hdw] at hsm
            by_cases hcr : (c == '\t' && !rest.isEmpty) = true
            · rw [if_pos hcr] at hsm
              have hct : c = '\t' := by
                have := (Bool.and_eq_true _ _).mp hcr
                exact beq_iff_eq.mp this.1
              have hrne : rest.isEmpty = false := by
                have := (Bool.and_eq_true _ _).mp hcr
                cases hre : rest.isEmpty with
                | false => rfl
                | true => rw [hre] at this; exact absurd this.2 (by decide)
              subst hct
              have hline : line = line.takeWhile GIT.isWordChar ++ '\t' :: rest := by
                conv_lhs => rw [← List.takeWhile_append_dropWhile GIT.isWordChar line]
                rw [hdw]
              have hw0ne : line.takeWhile GIT.isWordChar ≠ [] := by
                intro h0
                rw [h0] at hw0e
                exact absurd hw0e (by decide)
              have hrest : rest = [] :=
                hshape (line.takeWhile GIT.isWordChar) rest hline hw0ne
                  (fun c hc => List.mem_takeWhile_imp hc)
              rw [hrest] at hrne
              exact absurd hrne (by decide)
            · rw [if_neg hcr] at hsm
              exact Option.noConfusion hsm
    unfold GIT.CaptureStatus
    rw [hemp, pySplitlines_single _ hne hnb]
    unfold GIT.parseStatusLines
    simp only [hmn]
    rfl

/-- Witness for C7 at the spec inputs. -/
theorem C7_witness :
    GIT.CaptureStatus ("M\tfoo/bar.txt".data) = .ok [("M      ".data, "foo/bar.txt".data)]
    ∧ GIT.CaptureStatus ("M foo".data) = .error ("M foo".data) := by
  constructor
  · exact (C7_captureStatus ['M'] ("foo/bar.txt".data)
      (by decide) (by decide) (by decide) (by decide)).1
  · exact (C7_captureStatus ['M'] ("foo/bar.txt".data)
      (by decide) (by decide) (by decide) (by decide)).2 ("M foo".data) (by decide) (by decide)
      (fun w2 p2 heq _ _ =>
        absurd (heq ▸ (List.mem_append.mpr (Or.inr (List.mem_cons_self '\t' p2))))
          (by decide))

end ClaimC7

section ClaimC8

/-- The five header lines of a fake diff contain no line feed. -/
theorem genFakeDiff_headers_no_newline (filename : List Char) (hf : '\n' ∉ filename)
    (n : Nat) :
    ∀ l ∈ ["Index: ".data ++ filename, List.replicate 67 '=',
        "--- ".data ++ filename, "+++ ".data ++ filename,
        "@@ -0,0 +1,".data ++ (toString n).data ++ " @@".data], '\n' ∉ l := by
  intro l hlmem
  simp only [List.mem_cons, List.not_mem_nil, or_false] at hlmem
  rcases hlmem with rfl | rfl | rfl | rfl | rfl
  · intro hc
    rcases List.mem_append.mp hc with h1 | h1
    · exact absurd h1 (by decide)
    · exact hf h1
  · intro hc
    exact absurd (List.eq_of_mem_replicate hc) (by decide)
  · intro hc
    rcases List.mem_append.mp hc with h1 | h1
    · exact absurd h1 (by decide)
    · exact hf h1
  · intro hc
    rcases List.mem_append.mp hc with h1 | h1
    · exact absurd h1 (by decide)
    · exact hf h1
  · intro hc
    rcases List.mem_append.mp hc with h1 | h1
    · rcases List.mem_append.mp h1 with h2 | h2
      · exact absurd h2 (by decide)
      · exact toString_nat_no_newline n h2
    · exact absurd h1 (by decide)

/-- Plus-prefixed break-free lines contain no line feed. -/
theorem plussed_no_newline (bodyLines : List (List Char)) (hb : ∀ l ∈ bodyLines, '\n' ∉ l) :
    ∀ l ∈ bodyLines.map (fun l => '+' :: l), '\n' ∉ l := by
  intro l hlm
  rcases List.mem_map.mp hlm with ⟨l0, hl0, rfl⟩
  intro hc
  rcases List.mem_cons.mp hc with h1 | h1
  · exact absurd h1 (by decide)
  · exact hb l0 hl0 h1

/-- The fake diff over terminated lines is a flatten of terminated header
and body lines. -/
theorem genFakeDiff_as_flatten (filename : List Char) (bodyLines : List (List Char)) :
    GenFakeDiff filename (bodyLines.map (fun l => l ++ ['\n']))
      = ((["Index: ".data ++ filename, List.replicate 67 '=',
            "--- ".data ++ filename, "+++ ".data ++ filename,
            "@@ -0,0 +1,".data ++ (toString bodyLines.length).data ++ " @@".data]
           ++ bodyLines.map (fun l => '+' :: l)).map (fun l => l ++ ['\n'])).flatten := by
  unfold GenFakeDiff
  simp only [List.map_append, List.map_cons, List.map_nil, List.flatten_append,
    List.flatten_cons, List.flatten_nil, List.append_nil, List.map_map, List.length_map]
  have hcomp : bodyLines.map ((fun line => '+' :: line) ∘ fun l => l ++ ['\n'])
      = bodyLines.map ((fun l => l ++ ['\n']) ∘ fun l => '+' :: l) := by
    apply List.map_congr_left
    intro l _
    simp
  rw [hcomp]
  simp [List.append_assoc]

/-- As genFakeDiff_as_flatten, with one unterminated final line. -/
theorem genFakeDiff_as_flatten_last (filename : List Char) (bodyLines : List (List Char))
    (lastLine : List Char) :
    GenFakeDiff filename (bodyLines.map (fun l => l ++ ['\n']) ++ [lastLine])
      = ((["Index: ".data ++ filename, List.replicate 67 '=',
            "--- ".data ++ filename, "+++ ".data ++ filename,
            "@@ -0,0 +1,".data ++ (toString (bodyLines.length + 1)).data ++ " @@".data]
           ++ bodyLines.map (fun l => '+' :: l)).map (fun l => l ++ ['\n'])).flatten
        ++ ('+' :: lastLine) := by
  unfold GenFakeDiff
  simp only [List.map_append, List.map_cons, List.map_nil, List.flatten_append,
    List.flatten_cons, List.flatten_nil, List.append_nil, List.map_map,
    List.length_append, List.length_map, List.length_cons, List.length_nil]
  have hcomp : bodyLines.map ((fun line => '+' :: line) ∘ fun l => l ++ ['\n'])
      = bodyLines.map ((fun l => l ++ ['\n']) ∘ fun l => '+' :: l) := by
    apply List.map_congr_left
    intro l _
    simp
  rw [hcomp]
  simp [List.append_assoc]

/-- C8: on a file of n newline-terminated lines the fake diff consists of
the Index header naming the file, the 67-character separator of equal
signs, the --- and +++ markers, the hunk header announcing n, and exactly
the n content lines each prefixed with a plus sign, in that order; when the
final line lacks its terminator the same shape holds with it as the last
body line. -/
theorem C8_genFakeDiff (filename : List Char) (bodyLines : List (List Char))
    (lastLine : List Char) (hf : '\n' ∉ filename) (hb : ∀ l ∈ bodyLines, '\n' ∉ l)
    (hl : '\n' ∉ lastLine) :
    (textLines (GenFakeDiff filename (bodyLines.map (fun l => l ++ ['\n'])))
      = ["Index: ".data ++ filename, List.replicate 67 '=',
         "--- ".data ++ filename, "+++ ".data ++ filename,
         "@@ -0,0 +1,".data ++ (toString bodyLines.length).data ++ " @@".data]
        ++ bodyLines.map (fun l => '+' :: l))
    ∧ (textLines (GenFakeDiff filename (bodyLines.map (fun l => l ++ ['\n']) ++ [lastLine]))
      = ["Index: ".data ++ filename, List.replicate 67 '=',
         "--- ".data ++ filename, "+++ ".data ++ filename,
         "@@ -0,0 +1,".data ++ (toString (bodyLines.length + 1)).data ++ " @@".data]
        ++ bodyLines.map (fun l => '+' :: l) ++ ['+' :: lastLine]) := by
  constructor
  · rw [genFakeDiff_as_flatten filename bodyLines]
    apply textLines_terminated
    intro l hlm
    rcases List.mem_append.mp hlm with h1 | h1
    · exact genFakeDiff_headers_no_newline filename hf bodyLines.length l h1
    · exact plussed_no_newline bodyLines hb l h1
  · rw [genFakeDiff_as_flatten_last filename bodyLines lastLine]
    have := textLines_terminated_last
      (["Index: ".data ++ filename, List.replicate 67 '=',
        "--- ".data ++ filename, "+++ ".data ++ filename,
        "@@ -0,0 +1,".data ++ (toString (bodyLines.length + 1)).data ++ " @@".data]
       ++ bodyLines.map (fun l => '+' :: l)) ('+' :: lastLine)
      (by
        intro l hlm
        rcases List.mem_append.mp hlm with h1 | h1
        · exact genFakeDiff_headers_no_newline filename hf (bodyLines.length + 1) l h1
        · exact plussed_no_newline bodyLines hb l h1)
      (by
        intro hc
        rcases List.mem_cons.mp hc with h1 | h1
        · exact absurd h1 (by decide)
        · exact hl h1)
      (by simp)
    rw [this]

/-- Witness for C8 on a three-line file. -/
theorem C8_witness :
    textLines (GenFakeDiff ("a.txt".data) ((["x".data, "y".data, "z".data]).map
        (fun l => l ++ ['\n'])))
      = ["Index: ".data ++ "a.txt".data, List.replicate 67 '=',
         "--- ".data ++ "a.txt".data, "+++ ".data ++ "a.txt".data,
         "@@ -0,0 +1,".data ++ (toString (["x".data, "y".data, "z".data] :
            List (List Char)).length).data ++ " @@".data]
        ++ (["x".data, "y".data, "z".data]).map (fun l => '+' :: l) :=
  (C8_genFakeDiff ("a.txt".data) ["x".data, "y".data, "z".data] ("w".data)
    (by decide) (by decide) (by decide)).1

end ClaimC8

section ClaimC9

/-- C9 (amended): Capture decodes the output bytes with the total
replacing UTF-8 decoder, so no input raises; the unstripped form returns
the decoded text unchanged; the stripped form removes exactly the leading
and trailing whitespace of the decoded text (the source calls strip, which
trims both ends, not only the trailing end). -/
theorem C9_capture (outputBytes : List Nat) :
    GIT.Capture outputBytes false = utf8DecodeReplace outputBytes
    ∧ ∃ pre post, utf8DecodeReplace outputBytes
        = pre ++ GIT.Capture outputBytes true ++ post
      ∧ (∀ c ∈ pre, pyIsSpace c = true) ∧ (∀ c ∈ post, pyIsSpace c = true)
      ∧ (∀ c t, GIT.Capture outputBytes true = c :: t → pyIsSpace c = false)
      ∧ (∀ c t, GIT.Capture outputBytes true = t ++ [c] → pyIsSpace c = false) := by
  constructor
  · rfl
  · have hcap : GIT.Capture outputBytes true = pyStrip (utf8DecodeReplace outputBytes) := rfl
    rw [hcap]
    exact pyStrip_decomposition (utf8DecodeReplace outputBytes)

/-- C9 counterexample: an output with leading whitespace and no trailing
whitespace is changed by the stripped Capture, refuting the reading that
exactly the trailing whitespace is removed. -/
theorem C9_counterexample :
    GIT.Capture [0x20, 0x66, 0x6F, 0x6F] true = "foo".data
    ∧ ("foo".data : List Char) ≠ " foo".data :=
  ⟨by decide, by decide⟩

/-- Witness for C9 on a concrete byte string. -/
theorem C9_witness :
    GIT.Capture [0x66, 0x0A] false = utf8DecodeReplace [0x66, 0x0A] :=
  (C9_capture [0x66, 0x0A]).1

end ClaimC9
